import Mathlib

set_option maxRecDepth 4000

/-!
Verification development for the file-sync engine (`src/helpers.js` plus the
`Git` class of the same repository).  JavaScript strings are modelled as Lean
`String`; every string operation used by the code (`split`, `trim`,
`startsWith`, `endsWith`, first-occurrence `replace`, `slice`) is
re-implemented below by structural recursion over `List Char` so that every
definition evaluates inside the kernel.
-/

namespace RFS

/-- Whitespace characters relevant to the JavaScript `String.prototype.trim`
applied by `execCmd` to command output. -/
def jsWhitespace (c : Char) : Bool :=
  c == ' ' || c == '\t' || c == '\n' || c == '\r'

/-- Trim on character lists: drop leading and trailing whitespace. -/
def jsTrimList (cs : List Char) : List Char :=
  ((cs.dropWhile jsWhitespace).reverse.dropWhile jsWhitespace).reverse

/-- Model of JavaScript `s.trim()`. -/
def jsTrim (s : String) : String := ⟨jsTrimList s.data⟩

/-- If `pat` is a prefix of the list, return the remainder, else `none`. -/
def dropPfx : List Char → List Char → Option (List Char)
  | [], s => some s
  | _ :: _, [] => none
  | p :: ps, c :: cs => if p = c then dropPfx ps cs else none

/-- Fuel-driven splitter: splits a character list on every occurrence of the
(non-empty) separator `sep`, mirroring JavaScript `String.prototype.split`
with a string argument.  The fuel only needs to exceed the input length, so
`jsSplit` below supplies `s.length`; the fuel keeps the recursion structural
and therefore kernel-reducible. -/
def splitListAux (sep : List Char) : Nat → List Char → List (List Char)
  | _, [] => [[]]
  | 0, s => [s]
  | fuel + 1, c :: cs =>
    match dropPfx sep (c :: cs) with
    | some rest => [] :: splitListAux sep fuel rest
    | none =>
      match splitListAux sep fuel cs with
      | h :: t => (c :: h) :: t
      | [] => [[c]]

/-- Model of JavaScript `s.split(sep)` for a non-empty string separator. -/
def jsSplit (sep : String) (s : String) : List String :=
  (splitListAux sep.data s.data.length s.data).map (fun l => ⟨l⟩)

/-- Boolean "the first list is an initial segment of the second". -/
def listIsPfx : List Char → List Char → Bool
  | [], _ => true
  | _ :: _, [] => false
  | p :: ps, c :: cs => p == c && listIsPfx ps cs

/-- Model of JavaScript `s.startsWith(p)`. -/
def jsStartsWith (s p : String) : Bool := listIsPfx p.data s.data

/-- Model of JavaScript `s.endsWith(p)`. -/
def jsEndsWith (s p : String) : Bool := listIsPfx p.data.reverse s.data.reverse

/-- Fuel-driven first-occurrence replacement, mirroring JavaScript
`s.replace(pat, repl)` with a plain string pattern (only the first
occurrence is replaced). -/
def replaceFirstAux (pat repl : List Char) : Nat → List Char → List Char
  | _, [] =>
    match dropPfx pat [] with
    | some rest => repl ++ rest
    | none => []
  | 0, s => s
  | fuel + 1, c :: cs =>
    match dropPfx pat (c :: cs) with
    | some rest => repl ++ rest
    | none => c :: replaceFirstAux pat repl fuel cs

/-- Model of JavaScript `s.replace(pat, repl)` for string patterns. -/
def jsReplaceFirst (s pat repl : String) : String :=
  ⟨replaceFirstAux pat.data repl.data s.data.length s.data⟩

/-- Model of JavaScript `s.slice(n)` (drop the first `n` characters). -/
def jsDrop (s : String) (n : Nat) : String := ⟨s.data.drop n⟩

/-- Model of JavaScript `array.join(sep)` for string arrays. -/
def joinWith (sep : String) : List String → String
  | [] => ""
  | [x] => x
  | x :: xs => x ++ sep ++ joinWith sep xs

/-!
Filesystem model.  The working tree is a flat association list from file paths
(as `/`-separated component lists) to file contents; directories exist exactly
when some file lives strictly below them, which matches how the action only
ever materializes files.  `fs-extra` operations (`lstat`/`existsSync`,
`copy`, `remove`, `readdir`) are modelled on this representation.
-/

/-- A path, split into its `/`-separated components. -/
abbrev FPath := List String

/-- A working tree: file path components paired with file content. -/
abbrev FS := List (FPath × String)

/-- Split a string path into components (model of how the JS code addresses
files with `/`-separated relative paths). -/
def splitPath (p : String) : FPath := jsSplit "/" p

/-- Model of `path.join(a, b)` for already-normalized relative paths. -/
def pathJoin (a b : String) : String := a ++ "/" ++ b

/-- Content of the file at `p`, if a file exists there. -/
def lookupFileFS (fs : FS) (p : String) : Option String :=
  match fs.find? (fun e => e.1 == splitPath p) with
  | some e => some e.2
  | none => none

/-- If `pre` is an initial segment of `p`, return the remaining components. -/
def dropPfxPath : FPath → FPath → Option FPath
  | [], rest => some rest
  | _ :: _, [] => none
  | a :: as, b :: bs => if a == b then dropPfxPath as bs else none

/-- `p` is a directory: some file lives strictly below it
(model of `lstat(p).isDirectory()`). -/
def isDirFS (fs : FS) (p : String) : Bool :=
  fs.any (fun e =>
    match dropPfxPath (splitPath p) e.1 with
    | some (_ :: _) => true
    | _ => false)

/-- Model of `fs.existsSync` / a successful `lstat`: `p` is a file or a
directory. -/
def existsFS (fs : FS) (p : String) : Bool :=
  (lookupFileFS fs p).isSome || isDirFS fs p

/-- Write file content at `p`, overwriting an existing file
(model of `fs.outputFile` / copying one file). -/
def insertFS (fs : FS) (p : String) (c : String) : FS :=
  if fs.any (fun e => e.1 == splitPath p) then
    fs.map (fun e => if e.1 == splitPath p then (e.1, c) else e)
  else fs ++ [(splitPath p, c)]

/-- Model of `fs.remove` (rimraf semantics): delete the file at `p` and
everything below `p`; a missing path is a no-op. -/
def removeFS (fs : FS) (p : String) : FS :=
  fs.filter (fun e => !(e.1 == splitPath p) &&
    !(match dropPfxPath (splitPath p) e.1 with
      | some (_ :: _) => true
      | _ => false))

/-- Deduplicate a string list keeping first occurrences, with an accumulator
of already-seen names. -/
def dedupAux : List String → List String → List String
  | [], _ => []
  | x :: xs, seen =>
    if seen.contains x then dedupAux xs seen else x :: dedupAux xs (x :: seen)

/-- Model of `fs.readdir dir`: the immediate child names under `dir`, in
first-occurrence order of the file list. -/
def childNames (fs : FS) (dir : FPath) : List String :=
  dedupAux
    (fs.filterMap (fun e =>
      match dropPfxPath dir e.1 with
      | some (n :: _) => some n
      | _ => none))
    []

/-- Fuel-driven embedding of the source's recursive `walk(dir)`: list the
files under `dir` depth-first, pushing `path.join(dir, file)` for every
entry — so the returned names are full dir-joined paths, not dir-relative
ones.  The fuel only bounds recursion depth; `walk` below supplies a depth
that always suffices. -/
def walkF (fs : FS) : Nat → String → List String
  | 0, _ => []
  | fuel + 1, dir =>
    ((childNames fs (splitPath dir)).map (fun n =>
      if isDirFS fs (pathJoin dir n) then walkF fs fuel (pathJoin dir n)
      else [pathJoin dir n])).flatten

/-- Fuel that always suffices for `walkF`: one more than the longest path. -/
def walkDepth (fs : FS) : Nat :=
  fs.foldl (fun acc e => Nat.max acc e.1.length) 0 + 1

/-- The source's `walk(dir)` on the modelled filesystem. -/
def walk (fs : FS) (dir : String) : List String := walkF fs (walkDepth fs) dir

/-!
The `copy` helper (`src/helpers.js`, `copy`/`filterFunc`).  A file rule is the
per-file configuration record; the regular-expression patterns fed to
JavaScript `String.prototype.match` come from external configuration, so a
pattern is modelled as its induced match predicate `String → Bool`.
-/

/-- One file-sync rule.  `replace := none` models the `replace` option being
`undefined` (the code only tests `file.replace === false`); `template := none`
models a falsy `template`, `some ctx` a template context object. -/
structure FileRule where
  template : Option (List (String × String)) := none
  replace : Option Bool := none
  exclude : Option (List String) := none
  excludeFilePatterns : List (String → Bool) := []
  includeFilePatterns : List (String → Bool) := []
  deleteOrphaned : Bool := false

/-- The copy filter predicate (`filterFunc` inside `copy`).  `destFile = none`
models the call `filterFunc(srcFile)` with the second argument `undefined`,
in which case `fs.lstatSync(undefined)` throws and the catch branch returns
`true`.  The first `match` mirrors the `file.replace === false` block
(`try { lstat }` / `existsSync`), the second the `exclude` list checks, then
the `excludeFilePatterns` and `includeFilePatterns` loops. -/
def filterFunc (fs : FS) (file : FileRule) (srcFile : String)
     (destFile : Option String) : Bool :=
  let replaceStep : Option Bool :=
    if file.replace == some false then
      match destFile with
      | none => some true
      | some d =>
        if isDirFS fs d then some true
        else if (lookupFileFS fs d).isSome then
          if existsFS fs d then some false else none
        else some true
    else none
  match replaceStep with
  | some b => b
  | none =>
    let excludeStep : Option Bool :=
      match file.exclude with
      | some excl =>
        let filePath :=
          if jsEndsWith srcFile "/" then srcFile
          else joinWith "/" ((jsSplit "/" srcFile).dropLast) ++ "/"
        if excl.contains filePath then some false
        else if excl.contains srcFile then some false
        else none
      | none => none
    match excludeStep with
    | some b => b
    | none =>
      let includeCheck : Bool :=
        if file.includeFilePatterns.length > 0 then
          file.includeFilePatterns.any (fun pat => pat srcFile)
        else true
      if file.excludeFilePatterns.length > 0 then
        if file.excludeFilePatterns.any (fun pat => pat srcFile) then false
        else includeCheck
      else includeCheck

/-- The source's `write(src, dest, context)`: render the template file at
`src` through the (external, injected) template engine `renderFn` and write
the result to `dest`.  A missing template file makes the engine throw, which
is modelled as an `Except.error`. -/
def write (renderFn : String → List (String × String) → String) (fs : FS)
    (src dest : String) (ctx : List (String × String)) : Except String FS :=
  match lookupFileFS fs src with
  | none => .error ("template not found: " ++ src)
  | some content => .ok (insertFS fs dest (renderFn content ctx))

/-- The template-and-directory branch of `copy`: iterate over the `walk src`
file list, keep files passing `filterFunc(srcFile)` (note: called with only
the source path), and `write` each from `path.join(src, srcFile)` to
`path.join(dest, srcFile)`. -/
def copyTemplateDir (renderFn : String → List (String × String) → String)
    (file : FileRule) (ctx : List (String × String)) (src dest : String) :
    FS → List String → Except String FS
  | fs, [] => .ok fs
  | fs, srcFile :: rest =>
    if !(filterFunc fs file srcFile none) then
      copyTemplateDir renderFn file ctx src dest fs rest
    else
      match write renderFn fs (pathJoin src srcFile) (pathJoin dest srcFile) ctx with
      | .error e => .error e
      | .ok fs2 => copyTemplateDir renderFn file ctx src dest fs2 rest

/-- Model of `fs-extra`'s `fs.copy(src, dest, { filter })`: recursively copy
the subtree at `srcP` to `destP`, asking `filt` (on the current filesystem)
about every source/destination pair including the root, and skipping whole
subtrees the filter rejects.  Fuel bounds the recursion depth; `copy`
supplies a sufficient depth. -/
def fsCopyF (filt : FS → String → String → Bool) :
    Nat → FS → String → String → FS
  | 0, fs, _, _ => fs
  | fuel + 1, fs, srcP, destP =>
    if filt fs srcP destP then
      match lookupFileFS fs srcP with
      | some c => insertFS fs destP c
      | none =>
        (childNames fs (splitPath srcP)).foldl
          (fun acc n => fsCopyF filt fuel acc (pathJoin srcP n) (pathJoin destP n))
          fs
    else fs

/-- The `deleteOrphaned` loop at the end of `copy`: for every entry of the
destination walk, a name starting with `.git` aborts the whole loop (the
source code `return`s from `copy`), a name present in the source walk is
kept, and otherwise `path.join(dest, destFile)` is removed unless
`path.join(src, destFile)` appears in `file.exclude`. -/
def orphanLoop (file : FileRule) (src dest : String)
    (srcFileList : List String) : FS → List String → FS
  | fs, [] => fs
  | fs, destFile :: rest =>
    if jsStartsWith destFile ".git" then fs
    else if srcFileList.contains destFile then
      orphanLoop file src dest srcFileList fs rest
    else
      if (match file.exclude with
          | some excl => excl.contains (pathJoin src destFile)
          | none => false) then
        orphanLoop file src dest srcFileList fs rest
      else
        orphanLoop file src dest srcFileList
          (removeFS fs (pathJoin dest destFile)) rest

/-- The source's `copy(src, dest, isDirectory, file)`.  With a truthy
`template` the directory case walks the source and renders each kept file,
the single-file case renders once; otherwise `fs.copy` runs with
`filterFunc`.  Afterwards, for directory rules with `deleteOrphaned`, the
orphan loop runs on fresh `walk` listings of source and destination. -/
def copy (renderFn : String → List (String × String) → String) (fs : FS)
    (src dest : String) (isDirectory : Bool) (file : FileRule) :
    Except String FS :=
  let deleteOrphaned := isDirectory && file.deleteOrphaned
  let step1 : Except String FS :=
    match file.template with
    | some ctx =>
      if isDirectory then
        copyTemplateDir renderFn file ctx src dest fs (walk fs src)
      else write renderFn fs src dest ctx
    | none =>
      if existsFS fs src then
        .ok (fsCopyF (fun f s d => filterFunc f file s (some d))
          (walkDepth fs) fs src dest)
      else .error ("source not found: " ++ src)
  match step1 with
  | .error e => .error e
  | .ok fs1 =>
    if deleteOrphaned then
      .ok (orphanLoop file src dest (walk fs1 src) fs1 (walk fs1 dest))
    else .ok fs1

/-!
The tree-diff parser (`Git.getTreeDiff`).  The raw `git diff-tree -r` output
goes through `execCmd`, which trims it by default; each resulting line is
then stripped of a leading `:` (regex `^:`), has its first tab replaced by a
space, is split on single spaces, and destructured into six fields in the
order `newMode, previousMode, newBlob, previousBlob, change, path` —
missing fields are `undefined`, i.e. `none`.
-/

/-- One parsed row of `git diff-tree` output, with `undefined` fields as
`none`. -/
structure TreeDiffEntry where
  newMode : Option String
  previousMode : Option String
  newBlob : Option String
  previousBlob : Option String
  change : Option String
  path : Option String
deriving DecidableEq, Repr

/-- Parse one line of `git diff-tree` output as the loop body of
`Git.getTreeDiff` does. -/
def parseTreeDiffLine (line : String) : TreeDiffEntry :=
  let l1 := if jsStartsWith line ":" then jsDrop line 1 else line
  let l2 := jsReplaceFirst l1 "\t" " "
  let splitted := jsSplit " " l2
  { newMode := splitted[0]?, previousMode := splitted[1]?,
    newBlob := splitted[2]?, previousBlob := splitted[3]?,
    change := splitted[4]?, path := splitted[5]? }

/-- The tree-diff parser: `execCmd`'s default trim followed by
`Git.getTreeDiff`'s per-line loop over `output.split('\n')`. -/
def parseTreeDiff (output : String) : List TreeDiffEntry :=
  (jsSplit "\n" (jsTrim output)).map parseTreeDiffLine

/-!
The unified-diff parser (`Git.parseGitDiffOutput`).  The text is split into
per-file segments on `'\ndiff --git'` (after prepending a newline and
dropping the part before the first marker); for each segment the first line
starting with `+++` ends the header block.  Segments without such a line
(binary files) are skipped.  The file path comes from that line with its
6-character `'+++ b/'` prefix removed or, when the line does not start with
`'+++ b/'` (removed files, whose new-file header is `'+++ /dev/null'`), from
the line immediately before it with its 6-character `'--- a/'` prefix
removed; if that `+++` line were the very first line of the segment, the
JavaScript `lines[-1].slice` would throw, modelled as an `Except.error`.
The accumulated object is an association list with insert-or-overwrite.
-/

/-- Per-file segments of a diff: split on the separator and drop the text
before the first marker (`.slice(1)`). -/
def diffSegments (s : String) : List String :=
  (jsSplit "\ndiff --git" ("\n" ++ s)).drop 1

/-- Lines of one segment. -/
def segLines (seg : String) : List String := jsSplit "\n" seg

/-- Index of the last header line: the first line starting with `+++`. -/
def segHeaderIdx (seg : String) : Option Nat :=
  (segLines seg).findIdx? (fun l => jsStartsWith l "+++")

/-- The diff body for one segment: all lines after the `+++` line, joined
and trimmed (`plainDiff` in the source).  Only used on segments that have a
header line. -/
def segBody (seg : String) : String :=
  match segHeaderIdx seg with
  | some i => jsTrim (joinWith "\n" ((segLines seg).drop (i + 1)))
  | none => ""

/-- The file path extracted from one segment (`filePath` in the source). -/
def segPath (seg : String) : Except String String :=
  match segHeaderIdx seg with
  | none => .error "no header line"
  | some i =>
    let lines := segLines seg
    let hdr := (lines[i]?).getD ""
    if jsStartsWith hdr "+++ b/" then .ok (jsDrop hdr 6)
    else
      match i with
      | 0 => .error "TypeError: undefined has no slice"
      | j + 1 => .ok (jsDrop ((lines[j]?).getD "") 6)

/-- Insert-or-overwrite on an association list, modelling
`{ ...resultDict, [filePath]: plainDiff }` on a JavaScript object (existing
keys keep their position, new keys are appended). -/
def upsert (m : List (String × String)) (k v : String) :
    List (String × String) :=
  if m.any (fun e => e.1 == k) then
    m.map (fun e => if e.1 == k then (k, v) else e)
  else m ++ [(k, v)]

/-- The reduce over segments in `parseGitDiffOutput`. -/
def parseSegs (m : List (String × String)) :
    List String → Except String (List (String × String))
  | [] => .ok m
  | seg :: rest =>
    match segHeaderIdx seg with
    | none => parseSegs m rest
    | some _ =>
      match segPath seg with
      | .error e => .error e
      | .ok p => parseSegs (upsert m p (segBody seg)) rest

/-- The source's `Git.parseGitDiffOutput(string)`: a mapping from file path
to that file's diff body. -/
def parseGitDiffOutput (s : String) :
    Except String (List (String × String)) :=
  parseSegs [] (diffSegments s)

/-!
The verified-commit publisher (`Git.createGithubVerifiedCommits` and
`Git.createGithubCommit`).  The local git repository is an external
collaborator reached through shell commands, so it is modelled as lookup
tables from command argument to raw command output: `catFile` for
`git cat-file -p <object>` (keyed by the literal argument, so a parent tree
is looked up under `"<sha>~1"`), `logFormatB` for `git log -1 --format=%B`,
`diffTree` for `git diff-tree <a> <b> -r`, and `logOutput` for the
`git log --format=%H --reverse` body of `getCommitsToPush`.  The GitHub Git
Data API is modelled as an event trace plus counters generating fresh
object ids; `createBlob` records the raw blob content (the base64 transport
encoding is an injective external detail and is omitted).
-/

/-- Lookup tables standing in for the local git command-line interface. -/
structure LocalRepo where
  catFile : List (String × String)
  logFormatB : List (String × String)
  diffTree : List (String × String × String)
  logOutput : String

/-- One payload entry of the `createTree` call; `ty` is the constant
`'blob'` field. -/
structure TreePayloadEntry where
  path : Option String
  mode : Option String
  ty : String
  sha : Option String
deriving DecidableEq, Repr

/-- One GitHub Git Data API call recorded by the model. -/
inductive ApiEvent where
  | createBlob (content : String)
  | createTree (tree : List TreePayloadEntry) (baseTree : String)
  | createCommit (message : String) (parents : List String) (tree : String)
  | createRef (ref : String) (sha : String)
  | updateRef (ref : String) (sha : String)
deriving DecidableEq, Repr

/-- Session state while publishing: the session's `lastCommitSha`, two
counters the modelled API uses to mint fresh tree/commit ids, and the trace
of API calls so far. -/
structure PublishState where
  lastCommitSha : String
  treeN : Nat
  commitN : Nat
  events : List ApiEvent
deriving DecidableEq, Repr

/-- Fresh-id tag: a printable stand-in for the sha the API returns. -/
def natTag (n : Nat) : String := ⟨List.replicate n '+'⟩

/-- The source's `Git.getTreeId(commitSha)`: run `git cat-file -p`, trim
(`execCmd` default), split into lines, keep the header lines before the
first empty line (or, when there is none, `slice(0, -1)`), find the line
starting with `tree` and strip the first occurrence of `"tree "`. -/
def getTreeId (repo : LocalRepo) (ref : String) : Except String String :=
  match repo.catFile.find? (fun e => e.1 == ref) with
  | none => .error ("fatal: not a valid object name " ++ ref)
  | some e =>
    let output := jsSplit "\n" (jsTrim e.2)
    let commitHeaders :=
      match output.findIdx? (fun l => l == "") with
      | some i => output.take i
      | none => output.dropLast
    match commitHeaders.find? (fun l => jsStartsWith l "tree") with
    | some t => .ok (jsReplaceFirst t "tree " "")
    | none => .error "TypeError: no tree header"

/-- The source's `Git.getCommitMessage(commitSha)` (output trimmed by
`execCmd`). -/
def getCommitMessage (repo : LocalRepo) (sha : String) : Except String String :=
  match repo.logFormatB.find? (fun e => e.1 == sha) with
  | none => .error ("fatal: bad revision " ++ sha)
  | some e => .ok (jsTrim e.2)

/-- The source's `Git.getTreeDiff(referenceTreeId, differenceTreeId)`:
`git diff-tree` output fed through the tree-diff parser. -/
def getTreeDiff (repo : LocalRepo) (a b : String) :
    Except String (List TreeDiffEntry) :=
  match repo.diffTree.find? (fun e => e.1 == a && e.2.1 == b) with
  | none => .error ("fatal: bad tree objects " ++ a ++ " " ++ b)
  | some e => .ok (parseTreeDiff e.2.2)

/-- The source's `Git.uploadGitHubBlob(blob)`: read the blob content with
`git cat-file -p` (untrimmed) and create the blob through the API.  A blob
argument of `undefined`, or an unknown object, makes the shell command
fail. -/
def uploadGitHubBlob (repo : LocalRepo) (st : PublishState)
    (blob : Option String) : Except String PublishState :=
  match blob with
  | none => .error "fatal: not a valid object name undefined"
  | some b =>
    match repo.catFile.find? (fun e => e.1 == b) with
    | none => .error ("fatal: not a valid object name " ++ b)
    | some e => .ok { st with events := st.events ++ [.createBlob e.2] }

/-- The source's `Git.createGithubCommit(commitSha)`: compute the commit's
and its parent's tree ids and the commit message, diff the two trees, upload
a blob for every diff entry whose `newMode` is not `'000000'`, rewrite
deletion entries to carry the previous mode and a `null` sha, create the
tree against the parent tree, create the commit with parent
`lastCommitSha`, and advance `lastCommitSha` to the new commit's id. -/
def createGithubCommit (repo : LocalRepo) (st : PublishState)
    (commitSha : String) : Except String PublishState :=
  match getTreeId repo commitSha with
  | .error e => .error e
  | .ok treeId =>
    match getTreeId repo (commitSha ++ "~1") with
    | .error e => .error e
    | .ok parentTreeId =>
      match getCommitMessage repo commitSha with
      | .error e => .error e
      | .ok commitMessage =>
        match getTreeDiff repo treeId parentTreeId with
        | .error e => .error e
        | .ok treeDiff =>
          let blobsToCreate :=
            treeDiff.filter (fun e => !(e.newMode == some "000000"))
          match blobsToCreate.foldlM
              (fun s e => uploadGitHubBlob repo s e.newBlob) st with
          | .error e => .error e
          | .ok st1 =>
            let tree := treeDiff.map (fun e =>
              let e2 := if e.newMode == some "000000" then
                  { e with newMode := e.previousMode, newBlob := none }
                else e
              ({ path := e2.path, mode := e2.newMode, ty := "blob",
                 sha := e2.newBlob } : TreePayloadEntry))
            let treeSha := "apitree" ++ natTag st1.treeN
            let st2 : PublishState :=
              { st1 with treeN := st1.treeN + 1,
                         events := st1.events ++ [.createTree tree parentTreeId] }
            let commitSha2 := "apicommit" ++ natTag st2.commitN
            let st3 : PublishState :=
              { st2 with commitN := st2.commitN + 1,
                         events := st2.events ++
                           [.createCommit commitMessage [st2.lastCommitSha]
                             treeSha] }
            .ok { st3 with lastCommitSha := commitSha2 }

/-- The source's `Git.createGithubVerifiedCommits()`.  `refError` injects
the API behaviour of the `createRef` call (`none` = success, `some msg` =
the call rejects with message `msg`): with pull requests enabled
(`skipPr = false`) the PR branch ref is created at the current
`lastCommitSha`, a rejection with exactly the message
`"Reference already exists"` is swallowed and any other rejection is
re-thrown; then every commit of `getCommitsToPush` is replayed and the PR
branch (or, with `skipPr`, the base branch) ref is force-updated to the
final `lastCommitSha`. -/
def createGithubVerifiedCommits (repo : LocalRepo) (skipPr : Bool)
    (refError : Option String) (prBranch baseBranch : String)
    (st0 : PublishState) : Except String PublishState :=
  let commits := jsSplit "\n" (jsTrim repo.logOutput)
  let step1 : Except String PublishState :=
    if skipPr == false then
      match refError with
      | none =>
        .ok { st0 with events := st0.events ++
          [ApiEvent.createRef ("refs/heads/" ++ prBranch) st0.lastCommitSha] }
      | some msg =>
        if !(msg == "Reference already exists") then .error msg
        else .ok st0
    else .ok st0
  match step1 with
  | .error e => .error e
  | .ok st1 =>
    match commits.foldlM (fun s c => createGithubCommit repo s c) st1 with
    | .error e => .error e
    | .ok st2 =>
      .ok { st2 with events := st2.events ++
        [ApiEvent.updateRef
          ("heads/" ++ (if skipPr == false then prBranch else baseBranch))
          st2.lastCommitSha] }

/-- Blob content of a `createBlob` event. -/
def blobContent : ApiEvent → Option String
  | .createBlob c => some c
  | _ => none

/-- Is the event a `createCommit` call. -/
def isCommitEvent : ApiEvent → Bool
  | .createCommit _ _ _ => true
  | _ => false

/-- Is the event a `createRef` call. -/
def isRefCreateEvent : ApiEvent → Bool
  | .createRef _ _ => true
  | _ => false

/-!
Concrete replay scenario shared by the publisher claims: local history has
two commits beyond the remote base `origin0` — `c1` adds `x.txt` (blob
`bx1`, tree `t0 → t1`) and `c2` modifies `x.txt` (blob `bx2`) and deletes
`y.txt` (previous blob `by`, tree `t1 → t2`).  The `diffTree` entries are the
raw `git diff-tree <commit tree> <parent tree> -r` outputs (note the source
passes the commit tree first, so a file added in the commit shows the
reversed status `D` with its mode in the first column). -/
def repoTwoCommits : LocalRepo where
  catFile :=
    [("c1", "tree t1\nparent origin0\nauthor A <a@b> 1 +0000\n\nadd x.txt\n"),
     ("c1~1", "tree t0\nauthor A <a@b> 0 +0000\n\ninit\n"),
     ("c2", "tree t2\nparent c1\nauthor A <a@b> 2 +0000\n\nupdate x.txt, delete y.txt\n"),
     ("c2~1", "tree t1\nparent origin0\nauthor A <a@b> 1 +0000\n\nadd x.txt\n"),
     ("bx1", "X VERSION 1\n"),
     ("bx2", "X VERSION 2\n"),
     ("by", "Y CONTENT\n")]
  logFormatB := [("c1", "add x.txt\n"), ("c2", "update x.txt, delete y.txt\n")]
  diffTree :=
    [("t1", "t0",
      ":100644 000000 bx1 0000000000000000000000000000000000000000 D\tx.txt\n"),
     ("t2", "t1",
      ":100644 100644 bx2 bx1 M\tx.txt\n:000000 100644 0000000000000000000000000000000000000000 by A\ty.txt\n")]
  logOutput := "c1\nc2\n"

/-- Session state at the start of the replay scenario. -/
def pubStart : PublishState :=
  { lastCommitSha := "origin0", treeN := 0, commitN := 0, events := [] }

/-!
The `dedent` tag helper and `Git.createOrUpdatePr`.  `dedent` receives the
raw chunks of a tagged template literal together with the interpolated
values; it strips a trailing newline-plus-indentation from the last chunk,
computes the minimal indentation run following a newline across all chunks,
removes that many indent characters after every newline, strips one leading
newline from the first chunk, and interleaves chunks with values.
-/

/-- Indentation characters of `dedent`'s character class. -/
def indentChar (c : Char) : Bool := c == '\t' || c == ' '

/-- Length of the leading indentation run. -/
def countLeadingIndent : List Char → Nat
  | [] => 0
  | c :: cs => if indentChar c then countLeadingIndent cs + 1 else 0

/-- Model of `str.replace(/\r?\n([\t ]*)$/, '')`: remove a final newline
(with optional carriage return) followed only by indentation. -/
def stripTrailingNewlineIndent (s : String) : String :=
  let rev := s.data.reverse
  let rest := rev.dropWhile indentChar
  match rest with
  | '\n' :: rest2 =>
    match rest2 with
    | '\r' :: rest3 => ⟨rest3.reverse⟩
    | _ => ⟨rest2.reverse⟩
  | _ => s

/-- Lengths of the indentation runs of every `/\n[\t ]+/g` match
(fuel-driven scan; fuel above the input length suffices). -/
def indentRunLens : Nat → List Char → List Nat
  | _, [] => []
  | 0, _ => []
  | fuel + 1, '\n' :: cs =>
    let k := countLeadingIndent cs
    if k > 0 then k :: indentRunLens fuel (cs.drop k)
    else indentRunLens fuel cs
  | fuel + 1, _ :: cs => indentRunLens fuel cs

/-- Model of the global replace of `\n[\t ]{size}` by `\n`: after every
newline followed by at least `size` indentation characters, drop exactly
`size` of them (fuel-driven). -/
def dropIndentAfterNL (size : Nat) : Nat → List Char → List Char
  | _, [] => []
  | 0, s => s
  | fuel + 1, '\n' :: cs =>
    if size ≤ countLeadingIndent cs then '\n' :: dropIndentAfterNL size fuel (cs.drop size)
    else '\n' :: dropIndentAfterNL size fuel cs
  | fuel + 1, c :: cs => c :: dropIndentAfterNL size fuel cs

/-- Model of `str.replace(/^\r?\n/, '')`. -/
def stripLeadingNL (s : String) : String :=
  match s.data with
  | '\r' :: '\n' :: rest => ⟨rest⟩
  | '\n' :: rest => ⟨rest⟩
  | _ => s

/-- Interleave template chunks with interpolated values
(`strings[0] + values[0] + strings[1] + ...`; extra chunks beyond the last
value are not appended, as in the source's loop over `values`). -/
def interleave : List String → List String → String
  | [], _ => ""
  | s :: _, [] => s
  | s :: rest, v :: vs => s ++ v ++ interleave rest vs

/-- The source's `dedent(templateStrings, ...values)` for a tagged template
literal. -/
def dedent (strings0 : List String) (values : List String) : String :=
  let lastChunk := (strings0.getLast?).getD ""
  let strings1 := strings0.dropLast ++ [stripTrailingNewlineIndent lastChunk]
  let runs := (strings1.map (fun s => indentRunLens s.data.length s.data)).flatten
  let strings2 :=
    match runs with
    | [] => strings1
    | r :: rs =>
      let size := rs.foldl Nat.min r
      strings1.map (fun s => (⟨dropIndentAfterNL size s.data.length s.data⟩ : String))
  let strings3 :=
    match strings2 with
    | [] => []
    | s0 :: srest => stripLeadingNL s0 :: srest
  interleave strings3 values

/-- Process-wide configuration read by `createOrUpdatePr`
(`COMMIT_PREFIX`, `GITHUB_REPOSITORY`, `GITHUB_SERVER_URL`, `PR_BODY`, and
`process.env.GITHUB_RUN_ID || 0` rendered into the body). -/
structure SyncConfig where
  commitPfx : String
  repoFullName : String
  serverUrl : String
  prBodyCfg : String
  runId : String

/-- The default sync title
`` `${COMMIT_PREFIX} synced file(s) with ${GITHUB_REPOSITORY}` ``. -/
def defaultSyncTitle (cfg : SyncConfig) : String :=
  cfg.commitPfx ++ " synced file(s) with " ++ cfg.repoFullName

/-- The PR body computed at the top of `createOrUpdatePr`: the dedented
template literal with its interpolated values (chunks carry the tab
indentation of the source file). -/
def prBodyText (cfg : SyncConfig) (changedFiles : String) : String :=
  dedent
    ["\n\t\t\tsynced local file(s) with [", "](", "/", ").\n\n\t\t\t",
     "\n\n\t\t\t",
     "\n\n\t\t\t---\n\n\t\t\tThis PR was created automatically by the [repo-file-sync-action](https://github.com/BetaHuhn/repo-file-sync-action) workflow run [#",
     "](", "/", "/actions/runs/", ")\n\t\t"]
    [cfg.repoFullName, cfg.serverUrl, cfg.repoFullName, cfg.prBodyCfg,
     changedFiles, cfg.runId, cfg.serverUrl, cfg.repoFullName, cfg.runId]

/-- The cached PR handle (`this.existingPr`): number and body. -/
structure PrHandle where
  number : Nat
  body : String
deriving DecidableEq, Repr

/-- The REST call `createOrUpdatePr` issues: either `pulls.update` with a
pull number, title, and body, or `pulls.create` with title, body, head, and
base. -/
inductive PrRequest where
  | update (pullNumber : Nat) (title : String) (body : String)
  | create (title : String) (body : String) (head : String) (base : String)
deriving DecidableEq, Repr

/-- The source's `Git.createOrUpdatePr(changedFiles, title)`, returning the
REST request it issues.  `title = none` models an `undefined` title
argument; `fork`, `repoUser`, `prBranch`, `baseBranch` are the session
fields entering the `head`/`base` of the create call. -/
def createOrUpdatePr (cfg : SyncConfig) (fork : Option String)
    (repoUser prBranch baseBranch : String) (existingPr : Option PrHandle)
    (changedFiles : String) (title : Option String) : PrRequest :=
  let body := prBodyText cfg changedFiles
  match existingPr with
  | some pr => .update pr.number (defaultSyncTitle cfg) body
  | none =>
    .create
      (match title with
       | none => defaultSyncTitle cfg
       | some t => t)
      body
      ((match fork with | some f => f | none => repoUser) ++ ":" ++ prBranch)
      baseBranch

/-!
Concrete instances used by the theorems below.
-/

/-- Identity template engine: rendering without template directives. -/
def renderId : String → List (String × String) → String := fun c _ => c

/-- Orphan-deletion scenario: source directory holds exactly `a.txt`, the
destination holds `a.txt` and `b.txt`. -/
def fsOrphanScenario : FS :=
  [(["src", "a.txt"], "SRC-A"), (["dst", "a.txt"], "OLD-A"),
   (["dst", "b.txt"], "OLD-B")]

/-- Directory rule with `deleteOrphaned` enabled. -/
def ruleOrphanScenario : FileRule := { deleteOrphaned := true }

/-- Template-directory scenario: source directory with one file. -/
def fsTemplateScenario : FS := [(["src", "t.txt"], "hello")]

/-- Directory rule with a template context, `replace: false`, and an exclude
pattern matching everything under the source. -/
def ruleTemplateScenario : FileRule :=
  { template := some [("k", "v")], replace := some false,
    excludeFilePatterns := [fun s => jsStartsWith s "src"] }

/-- The spec's tree-diff example input. -/
def treeDiffExampleInput : String :=
  "  :100644 100644 abc123 def456 M\tfoo/bar.txt\n"

/-- Rule with `replace: false` and an exclude pattern. -/
def ruleReplaceExclude : FileRule :=
  { replace := some false,
    excludeFilePatterns := [fun s => s == "docs/README.md"] }

/-- Rule with `replace: false` and both an exclude and an include pattern
that match the same path. -/
def ruleBothPatterns : FileRule :=
  { replace := some false,
    excludeFilePatterns := [fun s => jsStartsWith s "lib/"],
    includeFilePatterns := [fun s => jsEndsWith s ".js"] }

/-- Rule without `replace` set whose exclude and include patterns match the
same path. -/
def ruleBothPatternsNoReplace : FileRule :=
  { excludeFilePatterns := [fun s => jsStartsWith s "lib/"],
    includeFilePatterns := [fun s => jsEndsWith s ".js"] }

/-- A nested directory chain `a/b/f`. -/
def fsNested : FS := [(["a", "b", "f"], "x")]

/-- A three-segment diff: a modified text file, a binary file, and a deleted
text file. -/
def diffExampleInput : String :=
  "diff --git a/f.txt b/f.txt\nindex 111..222 100644\n--- a/f.txt\n+++ b/f.txt\n@@ -1 +1 @@\n-a\n+b\n" ++
  "diff --git a/img b/img\nBinary files a/img and b/img differ\n" ++
  "diff --git a/del.txt b/del.txt\ndeleted file mode 100644\n--- a/del.txt\n+++ /dev/null\n@@ -1 +0,0 @@\n-x\n"

/-- The mapping the parser returns on `diffExampleInput`. -/
def diffExampleMap : List (String × String) :=
  (parseGitDiffOutput diffExampleInput).toOption.getD []

/-- The first segment of `diffExampleInput`. -/
def diffExampleSeg : String := ((diffSegments diffExampleInput)[0]?).getD ""

end RFS

namespace RFS

/-! Helper lemmas about strings viewed as character lists. -/

/-- Appending strings appends their character lists. -/
theorem strDataAppend (a b : String) : (a ++ b).data = a.data ++ b.data := by
  cases a
  cases b
  rfl

/-- Strings with equal character lists are equal. -/
theorem strExt {a b : String} (h : a.data = b.data) : a = b := by
  cases a
  cases b
  simp only at h
  rw [h]

/-- Every element of `walkF fs fuel dir` is `dir ++ "/" ++ rest` for some
`rest`. -/
theorem walkF_joined (fs : FS) :
    ∀ (fuel : Nat) (dir p : String), p ∈ walkF fs fuel dir →
      ∃ rest, p = dir ++ "/" ++ rest := by
  intro fuel
  induction fuel with
  | zero =>
    intro dir p hp
    simp [walkF] at hp
  | succ n ih =>
    intro dir p hp
    simp only [walkF] at hp
    rw [List.mem_flatten] at hp
    obtain ⟨l, hl, hpl⟩ := hp
    rw [List.mem_map] at hl
    obtain ⟨name, _, rfl⟩ := hl
    by_cases hd : isDirFS fs (pathJoin dir name) = true
    · rw [if_pos hd] at hpl
      obtain ⟨rest, hrest⟩ := ih (pathJoin dir name) p hpl
      refine ⟨name ++ "/" ++ rest, ?_⟩
      rw [hrest]
      apply strExt
      simp [pathJoin, strDataAppend, List.append_assoc]
    · rw [if_neg hd] at hpl
      rw [List.mem_singleton] at hpl
      exact ⟨name, hpl⟩

/-- If `d1 ++ "/" ++ r1 = d2 ++ "/" ++ r2` and `d1` is at most as long as
`d2`, then the directories are equal or `d2` lives strictly below `d1`. -/
theorem strCompose (d1 d2 r1 r2 : String)
    (h : d1 ++ "/" ++ r1 = d2 ++ "/" ++ r2)
    (hle : d1.data.length ≤ d2.data.length) :
    d1 = d2 ∨ ∃ t, d2 = d1 ++ "/" ++ t := by
  have hd : (d1.data ++ ['/']) ++ r1.data = (d2.data ++ ['/']) ++ r2.data := by
    have h2 := congrArg String.data h
    simpa [strDataAppend] using h2
  have hpre1 : (d1.data ++ ['/']) <+: ((d2.data ++ ['/']) ++ r2.data) := by
    rw [← hd]
    exact List.prefix_append _ _
  have hpre2 : (d2.data ++ ['/']) <+: ((d2.data ++ ['/']) ++ r2.data) :=
    List.prefix_append _ _
  have hpre : (d1.data ++ ['/']) <+: (d2.data ++ ['/']) := by
    rcases List.prefix_or_prefix_of_prefix hpre1 hpre2 with h1 | h2
    · exact h1
    · have hlen2 : (d2.data ++ ['/']).length ≤ (d1.data ++ ['/']).length :=
        h2.length_le
      have hlen1 : (d1.data ++ ['/']).length ≤ (d2.data ++ ['/']).length := by
        simp only [List.length_append, List.length_cons, List.length_nil]
        omega
      have heq : (d2.data ++ ['/']) = (d1.data ++ ['/']) :=
        h2.eq_of_length (le_antisymm hlen2 hlen1)
      rw [heq]
  obtain ⟨t, ht⟩ := hpre
  rcases List.eq_nil_or_concat t with rfl | ⟨s, c, rfl⟩
  · left
    have heq : d1.data = d2.data := by
      have h3 : d1.data ++ ['/'] = d2.data ++ ['/'] := by simpa using ht
      exact (List.append_inj' h3 rfl).1
    exact strExt heq
  · right
    refine ⟨⟨s⟩, ?_⟩
    apply strExt
    have h3 : (d1.data ++ ['/'] ++ s) ++ [c] = d2.data ++ ['/'] := by
      simpa [List.concat_eq_append, List.append_assoc] using ht
    have h4 := (List.append_inj' h3 rfl).1
    rw [← h4]
    simp [strDataAppend]

end RFS

namespace RFS

/-- C9 counterexample: `walk` listings of the two distinct directories `a`
and `a/b` share the element `a/b/f`, refuting the claim that listings of
distinct directories never share elements. -/
theorem C9_counterexample :
    ("a" : String) ≠ "a/b" ∧ "a/b/f" ∈ walk fsNested "a" ∧
      "a/b/f" ∈ walk fsNested "a/b" := by
  decide

/-- C9 (amended): every element of `walk fs dir` is the dir-joined full path
`dir ++ "/" ++ rest` for some `rest` (not a dir-relative path); consequently
the listings of two directories share no element whenever neither directory
is an ancestor of the other — for nested directories (one an ancestor of the
other) elements can be shared. -/
theorem C9_walk_full_paths :
    (∀ (fs : FS) (dir p : String), p ∈ walk fs dir →
      ∃ rest, p = dir ++ "/" ++ rest)
    ∧ (∀ (fs1 fs2 : FS) (d1 d2 p : String),
        d1 ≠ d2 → (¬ ∃ r, d2 = d1 ++ "/" ++ r) → (¬ ∃ r, d1 = d2 ++ "/" ++ r) →
        p ∈ walk fs1 d1 → p ∈ walk fs2 d2 → False) := by
  constructor
  · intro fs dir p hp
    exact walkF_joined fs (walkDepth fs) dir p hp
  · intro fs1 fs2 d1 d2 p hne hnd2 hnd1 hp1 hp2
    obtain ⟨r1, hr1⟩ := walkF_joined fs1 (walkDepth fs1) d1 p hp1
    obtain ⟨r2, hr2⟩ := walkF_joined fs2 (walkDepth fs2) d2 p hp2
    have h : d1 ++ "/" ++ r1 = d2 ++ "/" ++ r2 := by rw [← hr1, ← hr2]
    rcases Nat.le_total d1.data.length d2.data.length with hle | hle
    · rcases strCompose d1 d2 r1 r2 h hle with he | ⟨t, ht⟩
      · exact hne he
      · exact hnd2 ⟨t, ht⟩
    · rcases strCompose d2 d1 r2 r1 h.symm hle with he | ⟨t, ht⟩
      · exact hne he.symm
      · exact hnd1 ⟨t, ht⟩

/-- C9 witness: the amended theorem applied to the nested scenario. -/
theorem C9_witness : ∃ rest, ("a/b/f" : String) = "a" ++ "/" ++ rest :=
  C9_walk_full_paths.1 fsNested "a" "a/b/f" (by decide)

/-- C1: on the orphan-deletion scenario (source `{a.txt}`, destination
`{a.txt, b.txt}`, directory rule with `deleteOrphaned`), `copy` succeeds,
`a.txt` is overwritten with the source content — but the orphaned `b.txt`
survives: the orphan loop compares dest-joined `walk` paths against
src-joined ones, so every destination file looks orphaned, and then removes
`path.join(dest, destFile)` where `destFile` is itself already dest-joined,
a doubled path that exists nowhere, so nothing is ever deleted. -/
theorem C1_orphan_deletion_no_op :
    (copy renderId fsOrphanScenario "src" "dst" true
        ruleOrphanScenario).toOption.map
      (fun r => (lookupFileFS r "dst/a.txt", lookupFileFS r "dst/b.txt")) =
      some (some "SRC-A", some "OLD-B") := by
  rfl

/-- C2 counterexample: on the spec's example input the parsed entry carries
`newBlob = "abc123"` and `previousBlob = "def456"`, not the other way
around, so the claimed single entry (with `previousBlob = "abc123"`,
`newBlob = "def456"`) is not the result. -/
theorem C2_counterexample :
    parseTreeDiff treeDiffExampleInput ≠
      [{ newMode := some "100644", previousMode := some "100644",
         newBlob := some "def456", previousBlob := some "abc123",
         change := some "M", path := some "foo/bar.txt" }] := by
  decide

/-- C2 (amended): the example input parses to exactly one entry whose six
fields are taken in the order new mode, previous mode, new blob id,
previous blob id, change code, path (after trimming, stripping a leading
`:` and replacing the first tab), so the third field `abc123` is the
`newBlob` and the fourth field `def456` the `previousBlob`; a second
schematic line confirms the field order. -/
theorem C2_tree_diff_fields :
    parseTreeDiff treeDiffExampleInput =
      [{ newMode := some "100644", previousMode := some "100644",
         newBlob := some "abc123", previousBlob := some "def456",
         change := some "M", path := some "foo/bar.txt" }]
    ∧ parseTreeDiff ":nm pm nb pb C\tsome/path" =
      [{ newMode := some "nm", previousMode := some "pm",
         newBlob := some "nb", previousBlob := some "pb",
         change := some "C", path := some "some/path" }] :=
  ⟨rfl, rfl⟩

/-- C3 counterexample: with `replace: false`, an empty destination (so the
candidate's destination path exists neither as file nor directory) and an
exclude pattern matching the path, the filter returns `true` (the path is
copied), not `false` as the claim requires. -/
theorem C3_counterexample :
    filterFunc [] ruleReplaceExclude "docs/README.md"
      (some "dst/docs/README.md") = true := by
  rfl

/-- C3 (amended): when `rule.replace === false` and the destination path
exists neither as a file nor as a directory, the filter returns `true`
immediately out of the catch branch — the exclusion checks are never
reached, so even paths matching `excludeFilePatterns` are copied. -/
theorem C3_replace_false_missing_dest (fs : FS) (file : FileRule)
    (srcFile destFile : String) (hrep : file.replace = some false)
    (hex : existsFS fs destFile = false) :
    filterFunc fs file srcFile (some destFile) = true := by
  unfold existsFS at hex
  rw [Bool.or_eq_false_iff] at hex
  obtain ⟨h1, h2⟩ := hex
  unfold filterFunc
  rw [hrep]
  simp [h1, h2]

/-- C3 witness. -/
theorem C3_witness :
    filterFunc [] ruleReplaceExclude "docs/README.md"
      (some "out/docs/README.md") = true :=
  C3_replace_false_missing_dest [] ruleReplaceExclude "docs/README.md"
    "out/docs/README.md" rfl rfl

/-- C7 counterexample: a path matching both an exclude and an include
pattern is nevertheless kept (filter returns `true`) when
`rule.replace === false` and the destination does not exist, because the
replace block returns before any pattern check. -/
theorem C7_counterexample :
    filterFunc [] ruleBothPatterns "lib/util.js" (some "dst/lib/util.js") =
      true := by
  rfl

/-- C7 (amended): whenever the `replace === false` early return does not
apply (`rule.replace` is not `false`), a source path matching some entry of
`excludeFilePatterns` is excluded regardless of `includeFilePatterns` — the
exclude-pattern check runs before the include-pattern check. -/
theorem C7_exclude_precedence (fs : FS) (file : FileRule) (srcFile : String)
    (destFile : Option String) (hrep : file.replace ≠ some false)
    (hmatch : file.excludeFilePatterns.any (fun pat => pat srcFile) = true) :
    filterFunc fs file srcFile destFile = false := by
  have hb : (file.replace == some false) = false := by
    cases h : file.replace with
    | none => rfl
    | some v =>
      cases v with
      | true => rfl
      | false => exact absurd h hrep
  have hlen : 0 < file.excludeFilePatterns.length := by
    rcases List.any_eq_true.mp hmatch with ⟨x, hx, _⟩
    exact List.length_pos.mpr (List.ne_nil_of_mem hx)
  unfold filterFunc
  rw [hb]
  simp only [Bool.false_eq_true, if_false]
  cases hexc : file.exclude with
  | none => simp [hlen, hmatch]
  | some excl =>
    by_cases hc1 : ((if jsEndsWith srcFile "/" = true then srcFile
         else joinWith "/" ((jsSplit "/" srcFile).dropLast) ++ "/") ∈ excl)
    · simp [hc1]
    · by_cases hc2 : (srcFile ∈ excl)
      · simp [hc1, hc2]
      · simp [hc1, hc2, hlen, hmatch]

/-- C7 witness. -/
theorem C7_witness :
    filterFunc [] ruleBothPatternsNoReplace "lib/util.js"
      (some "dst/lib/util.js") = false :=
  C7_exclude_precedence [] ruleBothPatternsNoReplace "lib/util.js"
    (some "dst/lib/util.js") (by decide) (by decide)

/-- C8: `createOrUpdatePr` with an existing PR handle issues an update whose
title is always the default sync string (the `title` argument is ignored);
without a handle it creates a PR with the provided title, or the default
sync string when the title argument is `undefined`. -/
theorem C8_pr_title (cfg : SyncConfig) (fork : Option String)
    (repoUser prBranch baseBranch : String) (pr : PrHandle)
    (changedFiles : String) (title : Option String) (t0 : String) :
    createOrUpdatePr cfg fork repoUser prBranch baseBranch (some pr)
        changedFiles title =
      .update pr.number (defaultSyncTitle cfg) (prBodyText cfg changedFiles)
    ∧ createOrUpdatePr cfg fork repoUser prBranch baseBranch none
        changedFiles (some t0) =
      .create t0 (prBodyText cfg changedFiles)
        ((match fork with | some f => f | none => repoUser) ++ ":" ++ prBranch)
        baseBranch
    ∧ createOrUpdatePr cfg fork repoUser prBranch baseBranch none
        changedFiles none =
      .create (defaultSyncTitle cfg) (prBodyText cfg changedFiles)
        ((match fork with | some f => f | none => repoUser) ++ ":" ++ prBranch)
        baseBranch :=
  ⟨rfl, rfl, rfl⟩

/-- C10: in the template-and-directory branch the filter is indeed called
with only the source path (second argument `undefined`) and, with
`replace: false`, returns `true` before any pattern check — but the claimed
outcome "every file is rendered and written" does not happen: the branch
joins the directory onto the already dir-joined `walk` result, reads the
nonexistent doubled path `src/src/t.txt`, and the render throws, so `copy`
errors and writes nothing. -/
theorem C10_template_dir_render_fails :
    copy renderId fsTemplateScenario "src" "dst" true ruleTemplateScenario =
      .error "template not found: src/src/t.txt"
    ∧ filterFunc fsTemplateScenario ruleTemplateScenario "src/t.txt" none =
      true :=
  ⟨rfl, rfl⟩

end RFS

namespace RFS

/-- C4: replaying the two-commit scenario through the API creates exactly
two remote commits; a blob is uploaded exactly for the tree-diff entries
whose new mode is not the deletion sentinel `000000` — here the two
versions of `x.txt`, once per introducing commit — no blob is uploaded for
the deletion of `y.txt`, and the deletion entry enters the tree-creation
payload with the file's previous mode `100644` and a null sha. -/
theorem C4_blob_upload_replay :
    ∃ st', createGithubVerifiedCommits repoTwoCommits true none "pr" "main"
        pubStart = .ok st'
      ∧ st'.events.filterMap blobContent = ["X VERSION 1\n", "X VERSION 2\n"]
      ∧ (st'.events.filter isCommitEvent).length = 2
      ∧ "Y CONTENT\n" ∉ st'.events.filterMap blobContent
      ∧ ApiEvent.createTree
          [{ path := some "x.txt", mode := some "100644", ty := "blob",
             sha := some "bx2" },
           { path := some "y.txt", mode := some "100644", ty := "blob",
             sha := none }] "t1"
          ∈ st'.events := by
  refine ⟨_, rfl, ?_, ?_, ?_, ?_⟩ <;> decide

end RFS

namespace RFS

theorem upsert_mem_elim (m : List (String × String)) (k v p w : String)
    (h : (p, w) ∈ upsert m k v) : (p, w) ∈ m ∨ (p = k ∧ w = v) := by
  unfold upsert at h
  by_cases hk : m.any (fun e => e.1 == k)
  · rw [if_pos hk] at h
    rw [List.mem_map] at h
    obtain ⟨⟨a, b⟩, hab, heq⟩ := h
    by_cases hak : a == k
    · rw [if_pos hak] at heq
      right
      exact ⟨(Prod.mk.injEq _ _ _ _ ▸ heq).1.symm ▸ rfl, ((Prod.mk.injEq _ _ _ _).mp heq).2.symm⟩
    · rw [if_neg hak] at heq
      left
      exact heq ▸ hab
  · rw [if_neg hk] at h
    rw [List.mem_append] at h
    rcases h with h | h
    · exact Or.inl h
    · rw [List.mem_singleton] at h
      right
      exact ⟨((Prod.mk.injEq _ _ _ _).mp h).1, ((Prod.mk.injEq _ _ _ _).mp h).2⟩

theorem upsert_mem_self (m : List (String × String)) (k v : String) :
    ∃ w, (k, w) ∈ upsert m k v := by
  unfold upsert
  by_cases hk : m.any (fun e => e.1 == k)
  · rw [if_pos hk]
    rw [List.any_eq_true] at hk
    obtain ⟨⟨a, b⟩, hab, hak⟩ := hk
    refine ⟨v, List.mem_map.mpr ⟨(a, b), hab, ?_⟩⟩
    rw [if_pos hak]
  · rw [if_neg hk]
    exact ⟨v, List.mem_append.mpr (Or.inr (List.mem_singleton.mpr rfl))⟩

theorem upsert_mem_keep (m : List (String × String)) (k v p w : String)
    (h : (p, w) ∈ m) : ∃ w2, (p, w2) ∈ upsert m k v := by
  unfold upsert
  by_cases hk : m.any (fun e => e.1 == k)
  · rw [if_pos hk]
    by_cases hpk : p = k
    · refine ⟨v, List.mem_map.mpr ⟨(p, w), h, ?_⟩⟩
      simp [hpk]
    · refine ⟨w, List.mem_map.mpr ⟨(p, w), h, ?_⟩⟩
      have : ((p, w).1 == k) = false := by
        simp [hpk]
      simp [this]
  · rw [if_neg hk]
    exact ⟨w, List.mem_append.mpr (Or.inl h)⟩


theorem parseSegs_keys :
    ∀ (segs : List String) (acc m : List (String × String)),
      parseSegs acc segs = .ok m →
      (∀ p, (∃ w, (p, w) ∈ m) ↔
        ((∃ w, (p, w) ∈ acc) ∨
          ∃ seg, seg ∈ segs ∧ segHeaderIdx seg ≠ none ∧ segPath seg = .ok p))
      ∧ (∀ p w, (p, w) ∈ m →
          (p, w) ∈ acc ∨
            ∃ seg, seg ∈ segs ∧ segPath seg = .ok p ∧ segBody seg = w) := by
  intro segs
  induction segs with
  | nil =>
    intro acc m h
    unfold parseSegs at h
    have hm : acc = m := by
      injection h
    subst hm
    constructor
    · intro p
      constructor
      · intro hp
        exact Or.inl hp
      · rintro (hp | ⟨seg, hseg, _⟩)
        · exact hp
        · exact absurd hseg (List.not_mem_nil seg)
    · intro p w hw
      exact Or.inl hw
  | cons seg rest ih =>
    intro acc m h
    unfold parseSegs at h
    cases hh : segHeaderIdx seg with
    | none =>
      rw [hh] at h
      obtain ⟨h1, h2⟩ := ih acc m h
      constructor
      · intro p
        rw [h1 p]
        constructor
        · rintro (hp | ⟨s2, hs2, hhdr, hpath⟩)
          · exact Or.inl hp
          · exact Or.inr ⟨s2, List.mem_cons_of_mem seg hs2, hhdr, hpath⟩
        · rintro (hp | ⟨s2, hs2, hhdr, hpath⟩)
          · exact Or.inl hp
          · rcases List.mem_cons.mp hs2 with rfl | hs2r
            · exact absurd hh hhdr
            · exact Or.inr ⟨s2, hs2r, hhdr, hpath⟩
      · intro p w hw
        rcases h2 p w hw with hp | ⟨s2, hs2, hpath, hbody⟩
        · exact Or.inl hp
        · exact Or.inr ⟨s2, List.mem_cons_of_mem seg hs2, hpath, hbody⟩
    | some i =>
      rw [hh] at h
      cases hp0 : segPath seg with
      | error e =>
        rw [hp0] at h
        exact absurd h (by simp)
      | ok p0 =>
        rw [hp0] at h
        obtain ⟨h1, h2⟩ := ih (upsert acc p0 (segBody seg)) m h
        constructor
        · intro p
          rw [h1 p]
          constructor
          · rintro (⟨w, hw⟩ | ⟨s2, hs2, hhdr, hpath⟩)
            · rcases upsert_mem_elim acc p0 (segBody seg) p w hw with hin | ⟨rfl, _⟩
              · exact Or.inl ⟨w, hin⟩
              · exact Or.inr ⟨seg, List.mem_cons_self seg rest, by rw [hh]; simp, hp0⟩
            · exact Or.inr ⟨s2, List.mem_cons_of_mem seg hs2, hhdr, hpath⟩
          · rintro (⟨w, hw⟩ | ⟨s2, hs2, hhdr, hpath⟩)
            · exact Or.inl (upsert_mem_keep acc p0 (segBody seg) p w hw)
            · rcases List.mem_cons.mp hs2 with rfl | hs2r
              · have hpp : p = p0 := by
                  rw [hp0] at hpath
                  exact (Except.ok.inj hpath).symm
                subst hpp
                exact Or.inl (upsert_mem_self acc p (segBody s2))
              · exact Or.inr ⟨s2, hs2r, hhdr, hpath⟩
        · intro p w hw
          rcases h2 p w hw with hin | ⟨s2, hs2, hpath, hbody⟩
          · rcases upsert_mem_elim acc p0 (segBody seg) p w hin with hin2 | ⟨rfl, rfl⟩
            · exact Or.inl hin2
            · exact Or.inr ⟨seg, List.mem_cons_self seg rest, hp0, rfl⟩
          · exact Or.inr ⟨s2, List.mem_cons_of_mem seg hs2, hpath, hbody⟩


/-- C5: whenever the unified-diff parser succeeds, the keys of the returned
mapping are exactly the paths extracted (by `segPath`: stripping the fixed
6-character prefix from the `+++ b/` line or, otherwise, from the line
immediately before it) from the per-file segments that contain a line
starting with `+++` — segments lacking one (binary files) contribute no
key — and every value is the post-header text of such a segment, trimmed
(`segBody`). -/
theorem C5_parse_diff_spec (s : String) (m : List (String × String))
    (h : parseGitDiffOutput s = .ok m) :
    (∀ p, (∃ w, (p, w) ∈ m) ↔
      ∃ seg, seg ∈ diffSegments s ∧ segHeaderIdx seg ≠ none ∧
        segPath seg = .ok p)
    ∧ (∀ p w, (p, w) ∈ m →
      ∃ seg, seg ∈ diffSegments s ∧ segPath seg = .ok p ∧ segBody seg = w) := by
  obtain ⟨h1, h2⟩ := parseSegs_keys (diffSegments s) [] m h
  constructor
  · intro p
    rw [h1 p]
    constructor
    · rintro (⟨w, hw⟩ | hseg)
      · exact absurd hw (List.not_mem_nil (p, w))
      · exact hseg
    · intro hseg
      exact Or.inr hseg
  · intro p w hw
    rcases h2 p w hw with hacc | hseg
    · exact absurd hacc (List.not_mem_nil (p, w))
    · exact hseg

/-- C5 witness: the theorem applied to a concrete three-segment diff. -/
theorem C5_witness : ∃ w, ("f.txt", w) ∈ diffExampleMap :=
  ((C5_parse_diff_spec diffExampleInput diffExampleMap rfl).1 "f.txt").mpr
    ⟨diffExampleSeg, by decide, by decide, rfl⟩


end RFS

namespace RFS

/-- A successful blob upload only appends to the API event trace. -/
theorem uploadBlob_events (repo : LocalRepo) (st : PublishState)
    (b : Option String) (st2 : PublishState)
    (h : uploadGitHubBlob repo st b = .ok st2) :
    ∃ tail, st2.events = st.events ++ tail := by
  unfold uploadGitHubBlob at h
  split at h
  · exact absurd h (by simp)
  · split at h
    · exact absurd h (by simp)
    · rename_i e _
      have h2 : st2 = { st with events := st.events ++ [ApiEvent.createBlob e.2] } :=
        (Except.ok.inj h).symm
      exact ⟨[ApiEvent.createBlob e.2], by rw [h2]⟩

/-- A successful sequence of blob uploads only appends to the trace. -/
theorem foldUpload_events (repo : LocalRepo) :
    ∀ (l : List TreeDiffEntry) (st st2 : PublishState),
      l.foldlM (fun s e => uploadGitHubBlob repo s e.newBlob) st = .ok st2 →
      ∃ tail, st2.events = st.events ++ tail := by
  intro l
  induction l with
  | nil =>
    intro st st2 h
    simp only [List.foldlM_nil] at h
    exact ⟨[], by rw [← (Except.ok.inj h)]; simp⟩
  | cons e rest ih =>
    intro st st2 h
    simp only [List.foldlM_cons] at h
    cases h1 : uploadGitHubBlob repo st e.newBlob with
    | error msg =>
      rw [h1] at h
      exact absurd h (fun hh => Except.noConfusion hh)
    | ok stMid =>
      rw [h1] at h
      obtain ⟨t1, ht1⟩ := uploadBlob_events repo st e.newBlob stMid h1
      obtain ⟨t2, ht2⟩ := ih stMid st2 h
      exact ⟨t1 ++ t2, by rw [ht2, ht1, List.append_assoc]⟩

/-- A successful `createGithubCommit` only appends to the trace. -/
theorem createGithubCommit_events (repo : LocalRepo) (st : PublishState)
    (sha : String) (st2 : PublishState)
    (h : createGithubCommit repo st sha = .ok st2) :
    ∃ tail, st2.events = st.events ++ tail := by
  unfold createGithubCommit at h
  split at h
  · exact absurd h (by simp)
  · split at h
    · exact absurd h (by simp)
    · split at h
      · exact absurd h (by simp)
      · split at h
        · exact absurd h (by simp)
        · dsimp only at h
          split at h
          · exact absurd h (by simp)
          · rename_i st1 hfold
            obtain ⟨t1, ht1⟩ := foldUpload_events repo _ st st1 hfold
            have h2 := (Except.ok.inj h).symm
            have h3 : ∃ tail, st2.events = st1.events ++ tail := by
              rw [h2]
              dsimp only
              rw [List.append_assoc]
              exact ⟨_, rfl⟩
            obtain ⟨tA, htA⟩ := h3
            exact ⟨t1 ++ tA, by rw [htA, ht1, List.append_assoc]⟩

/-- A successful commit-replay loop only appends to the trace. -/
theorem foldCommits_events (repo : LocalRepo) :
    ∀ (l : List String) (st st2 : PublishState),
      l.foldlM (fun s c => createGithubCommit repo s c) st = .ok st2 →
      ∃ tail, st2.events = st.events ++ tail := by
  intro l
  induction l with
  | nil =>
    intro st st2 h
    simp only [List.foldlM_nil] at h
    exact ⟨[], by rw [← (Except.ok.inj h)]; simp⟩
  | cons c rest ih =>
    intro st st2 h
    simp only [List.foldlM_cons] at h
    cases h1 : createGithubCommit repo st c with
    | error msg =>
      rw [h1] at h
      exact absurd h (fun hh => Except.noConfusion hh)
    | ok stMid =>
      rw [h1] at h
      obtain ⟨t1, ht1⟩ := createGithubCommit_events repo st c stMid h1
      obtain ⟨t2, ht2⟩ := ih stMid st2 h
      exact ⟨t1 ++ t2, by rw [ht2, ht1, List.append_assoc]⟩


/-- C6: with pull requests enabled, (1) a ref-creation rejection with any
message other than `Reference already exists` re-raises that exact error;
(2) on the successful path the PR branch ref is created at the pre-replay
`lastCommitSha`, as the first API call before any commit is replayed; and
(3) the rejection with exactly the message `Reference already exists` is
swallowed — on the two-commit scenario the replay still produces two remote
commits and no `createRef` call is recorded. -/
theorem C6_ref_creation :
    (∀ (repo : LocalRepo) (prB baseB : String) (st0 : PublishState)
        (msg : String), msg ≠ "Reference already exists" →
        createGithubVerifiedCommits repo false (some msg) prB baseB st0 =
          .error msg)
    ∧ (∀ (repo : LocalRepo) (prB baseB : String) (st0 : PublishState),
        match createGithubVerifiedCommits repo false none prB baseB st0 with
        | .ok st2 => ∃ tail, st2.events =
            st0.events ++
              [ApiEvent.createRef ("refs/heads/" ++ prB) st0.lastCommitSha] ++
              tail
        | .error _ => True)
    ∧ (match createGithubVerifiedCommits repoTwoCommits false
          (some "Reference already exists") "pr" "main" pubStart with
        | .ok st2 => (st2.events.filter isCommitEvent).length = 2 ∧
            st2.events.filter isRefCreateEvent = []
        | .error _ => False) := by
  refine ⟨?_, ?_, ?_⟩
  · intro repo prB baseB st0 msg hmsg
    have hb : (msg == "Reference already exists") = false := by
      simp [hmsg]
    unfold createGithubVerifiedCommits
    dsimp only
    rw [hb]
    rfl
  · intro repo prB baseB st0
    have hrun : createGithubVerifiedCommits repo false none prB baseB st0 =
        (match List.foldlM (fun s c => createGithubCommit repo s c)
            { st0 with events := st0.events ++
              [ApiEvent.createRef ("refs/heads/" ++ prB) st0.lastCommitSha] }
            (jsSplit "\n" (jsTrim repo.logOutput)) with
          | .error e => (.error e : Except String PublishState)
          | .ok st2 => .ok { st2 with events := st2.events ++
              [ApiEvent.updateRef ("heads/" ++ prB) st2.lastCommitSha] }) := rfl
    rw [hrun]
    cases hf : List.foldlM (fun s c => createGithubCommit repo s c)
        { st0 with events := st0.events ++
          [ApiEvent.createRef ("refs/heads/" ++ prB) st0.lastCommitSha] }
        (jsSplit "\n" (jsTrim repo.logOutput)) with
    | error e => exact trivial
    | ok st2 =>
      obtain ⟨t1, ht1⟩ := foldCommits_events repo _ _ st2 hf
      dsimp only at ht1
      refine ⟨t1 ++ [ApiEvent.updateRef ("heads/" ++ prB) st2.lastCommitSha], ?_⟩
      dsimp only
      rw [ht1, List.append_assoc]
  · exact ⟨rfl, rfl⟩

/-- C6 witness: an injected `boom` rejection is re-raised. -/
theorem C6_witness :
    createGithubVerifiedCommits repoTwoCommits false (some "boom") "pr" "main"
      pubStart = .error "boom" :=
  C6_ref_creation.1 repoTwoCommits "pr" "main" pubStart "boom" (by decide)


end RFS
